import Mathlib

/-!
Verification of the background processing orchestrator of the
AI Personal Health Companion (`src/processor/processor.py`).

The Python source is shallowly embedded: timestamps are seconds since the
epoch (`Nat`), Cosmos DB containers are lists of documents with a string
key, the external collaborators (blob store, vision, OpenAI, delete calls)
are oracles passed in as functions, and every operation of the processor
is a pure Lean function over this state.
-/

namespace HealthProc

/-! ## Wall-clock arithmetic

`datetime.utcnow()` is modelled as a number of seconds since the epoch.
`hourOf`, `minuteOf`, `dateOf` and `weekdayOf` mirror `.hour`, `.minute`,
`.date()` and `.weekday()` (the epoch day 1970-01-01 was a Thursday,
weekday 3 in Python's Monday-is-0 convention). -/

def hourOf (t : Nat) : Nat := t % 86400 / 3600

def minuteOf (t : Nat) : Nat := t % 3600 / 60

def dateOf (t : Nat) : Nat := t / 86400

def weekdayOf (t : Nat) : Nat := (t / 86400 + 3) % 7

/-- The trigger tested by `generate_daily_insights`:
`current_time.hour == 6 and current_time.minute == 0`. -/
def dailyTrigger (t : Nat) : Bool :=
  hourOf t == 6 && minuteOf t == 0

/-- The trigger tested by `health_trend_analysis`:
`current_time.weekday() == 6 and current_time.hour == 8`. -/
def trendTrigger (t : Nat) : Bool :=
  weekdayOf t == 6 && hourOf t == 8

/-- The trigger tested by `cleanup_old_data`:
`current_time.day == 1 and current_time.hour == 2`.  The day-of-month is a
function of the calendar date only; it is abstracted as a parameter `dom`
because the claims never depend on the actual calendar. -/
def cleanupTrigger (dom : Nat → Nat) (t : Nat) : Bool :=
  dom (dateOf t) == 1 && hourOf t == 2

/-- The check instants of one polling loop: consecutive evaluations of the
trigger are at least `g` seconds apart (the loop bodies end in
`asyncio.sleep(60)` resp. `asyncio.sleep(3600)`, which suspends for at
least that long, and the work before the sleep only adds time). -/
def gapped (g : Nat) (trace : List Nat) : Prop :=
  List.Chain' (fun a b => a + g ≤ b) trace

/-- The checks at which a loop actually runs its job body. -/
def firesOf (trig : Nat → Bool) (trace : List Nat) : List Nat :=
  trace.filter trig

/-! ## Data model

`WorkItem` models one document of the `FoodHistory` or `MedicalRecords`
Cosmos containers.  Python documents are open dicts; the fields below are
exactly those the processor reads or writes (the analysis-result fields of
both kinds coexist with empty defaults, as absent dict keys). -/

inductive Status where
  | pending
  | completed
  | failed
deriving DecidableEq, BEq

structure WorkItem where
  id : String
  userId : String
  timestamp : Nat
  status : Status
  imagePath : String := ""
  documentPath : String := ""
  documentType : String := "general"
  itemType : String := ""
  processedAt : Option Nat := none
  error : Option String := none
  foodItems : List String := []
  nutritionInfo : List (String × String) := []
  healthAssessment : List (String × String) := []
  recommendations : List String := []
  extractedText : String := ""
  keyFindings : List String := []
  metrics : List (String × String) := []
  riskAssessment : List (String × String) := []
  followUpActions : List String := []
  lifestyleRecommendations : List String := []
deriving DecidableEq

/-! ## Generic keyed document store

A Cosmos container is a list of documents with a string key.
`upsertDoc` is `container.upsert_item` (replace the document with the same
id, else insert), `removeDoc` is `container.delete_item`, `findDoc` is
point lookup by id. -/

section Store

variable {α : Type} (key : α → String)

def findDoc (s : List α) (i : String) : Option α :=
  s.find? (fun x => decide (key x = i))

def upsertDoc (s : List α) (x : α) : List α :=
  match s with
  | [] => [x]
  | y :: ys => if key y = key x then x :: ys else y :: upsertDoc ys x

def removeDoc (s : List α) (i : String) : List α :=
  s.filter (fun y => decide (key y ≠ i))

/-- One document per key: the container's ids are pairwise distinct. -/
def keysNodup (s : List α) : Prop :=
  (s.map key).Nodup

/-- Number of documents in the container whose id is `i`. -/
def countKey (s : List α) (i : String) : Nat :=
  s.countP (fun x => decide (key x = i))

/-- Sequential best-effort-free deletion: `delete_item` is called for each
victim id in order with no per-item exception handler; the oracle `ok`
says whether the call succeeds.  The first failing call raises, aborting
the rest.  Returns the resulting container, the ids actually attempted
(in order, including the failing one), and whether all calls succeeded. -/
def deleteSeq (s : List α) (vs : List String) (ok : String → Bool) :
    List α × List String × Bool :=
  match vs with
  | [] => (s, [], true)
  | v :: tl =>
    if ok v then
      let r := deleteSeq (removeDoc key s v) tl ok
      (r.1, v :: r.2.1, r.2.2)
    else (s, [v], false)

end Store

/-! ## Pending-item drainer

`process_food_analysis` / `process_medical_analysis` embed the two item
processors.  All external effects of one item's processing — the blob
download, the vision call, the OpenAI call and the `json.loads` of its
reply — are summarised by an outcome oracle: either everything succeeded
and produced a parsed JSON object (whose expected keys may each be
absent), or some step raised an exception with a message.  Every failure
funnels into the same `except` block of the source, which marks the item
failed. -/

/-- The parsed JSON object returned for a food analysis; `none` fields are
keys absent from the (valid) JSON. -/
structure FoodResult where
  food_items : Option (List String) := none
  nutrition_info : Option (List (String × String)) := none
  health_assessment : Option (List (String × String)) := none
  recommendations : Option (List String) := none
deriving DecidableEq

inductive FoodOutcome where
  /-- blob fetch, vision, completion and `json.loads` all succeeded -/
  | ok (r : FoodResult)
  /-- the blob download raised -/
  | fetchErr (msg : String)
  /-- the vision or OpenAI call raised -/
  | inferErr (msg : String)
  /-- the completion content was not valid JSON -/
  | parseErr (msg : String)
deriving DecidableEq

/-- The parsed JSON object returned for a medical document analysis. -/
structure MedResult where
  key_findings : Option (List String) := none
  metrics : Option (List (String × String)) := none
  risk_assessment : Option (List (String × String)) := none
  follow_up_actions : Option (List String) := none
  lifestyle_recommendations : Option (List String) := none
deriving DecidableEq

inductive MedOutcome where
  | ok (text : String) (r : MedResult)
  | fetchErr (msg : String)
  | inferErr (msg : String)
  | parseErr (msg : String)
deriving DecidableEq

/-- Embeds `HealthDataProcessor.process_food_analysis`: on success the item is
completed and the result keys are merged with empty defaults
(`analysis_result.get(k, default)`); on any exception the item is marked
failed with the exception text.  Either way `processedAt` is set to now
and the item is upserted (the upsert itself is done by the drainer model
below). -/
def process_food_analysis (it : WorkItem) (o : FoodOutcome) (now : Nat) :
    WorkItem :=
  match o with
  | .ok r =>
    { it with
      status := Status.completed
      foodItems := r.food_items.getD []
      nutritionInfo := r.nutrition_info.getD []
      healthAssessment := r.health_assessment.getD []
      recommendations := r.recommendations.getD []
      processedAt := some now }
  | .fetchErr msg | .inferErr msg | .parseErr msg =>
    { it with
      status := Status.failed
      error := some msg
      processedAt := some now }

/-- Embeds `HealthDataProcessor.process_medical_analysis`. -/
def process_medical_analysis (it : WorkItem) (o : MedOutcome) (now : Nat) :
    WorkItem :=
  match o with
  | .ok text r =>
    { it with
      status := Status.completed
      extractedText := text
      keyFindings := r.key_findings.getD []
      metrics := r.metrics.getD []
      riskAssessment := r.risk_assessment.getD []
      followUpActions := r.follow_up_actions.getD []
      lifestyleRecommendations := r.lifestyle_recommendations.getD []
      processedAt := some now }
  | .fetchErr msg | .inferErr msg | .parseErr msg =>
    { it with
      status := Status.failed
      error := some msg
      processedAt := some now }

/-- Timestamp order used by the `ORDER BY c.timestamp ASC` of the pending
queries. -/
def tsRel (a b : WorkItem) : Prop := a.timestamp ≤ b.timestamp

instance : IsTotal WorkItem tsRel :=
  ⟨fun a b => Nat.le_total a.timestamp b.timestamp⟩

instance : IsTrans WorkItem tsRel :=
  ⟨fun _ _ _ h1 h2 => Nat.le_trans h1 h2⟩

instance : DecidableRel tsRel :=
  fun a b => inferInstanceAs (Decidable (a.timestamp ≤ b.timestamp))

def sortByTs (l : List WorkItem) : List WorkItem := l.insertionSort tsRel

/-- The pending snapshot of one container:
`SELECT * FROM c WHERE c.status = 'pending' ORDER BY c.timestamp ASC`. -/
def pendingOf (s : List WorkItem) : List WorkItem :=
  sortByTs (s.filter (fun x => decide (x.status = Status.pending)))

/-- Drain one container: take the pending snapshot, process each item in
snapshot order with `proc`, upserting each processed item.  Returns the
container after the drain, the processed snapshot (in processing order)
and the upserted documents (in upsert order). -/
def drainStore (s : List WorkItem) (proc : WorkItem → WorkItem) :
    List WorkItem × List WorkItem × List WorkItem :=
  let p := pendingOf s
  let w := p.map proc
  (w.foldl (upsertDoc WorkItem.id) s, p, w)

structure DrainResult where
  food : List WorkItem
  medical : List WorkItem
  foodSeq : List WorkItem
  medSeq : List WorkItem
  foodWrites : List WorkItem
  medWrites : List WorkItem

/-- Embeds `HealthDataProcessor.process_pending_analyses`, one loop iteration:
query both containers for pending items ordered by timestamp ascending,
process all pending food items first, then all pending medical items. -/
def process_pending_analyses (f m : List WorkItem)
    (oF : String → FoodOutcome) (oM : String → MedOutcome) (now : Nat) :
    DrainResult :=
  let rf := drainStore f (fun x => process_food_analysis x (oF x.id) now)
  let rm := drainStore m (fun x => process_medical_analysis x (oM x.id) now)
  { food := rf.1
    medical := rm.1
    foodSeq := rf.2.1
    medSeq := rm.2.1
    foodWrites := rf.2.2
    medWrites := rm.2.2 }

/-- The items of one drain call in overall processing order: the food
snapshot first, then the medical snapshot. -/
def DrainResult.seq (d : DrainResult) : List WorkItem :=
  d.foodSeq ++ d.medSeq

def cxFoodItem : WorkItem :=
  { id := "f1", userId := "u1", timestamp := 100, status := Status.pending }

def cxMedItem : WorkItem :=
  { id := "m1", userId := "u1", timestamp := 50, status := Status.pending }

/-! ## Derived records (Recommendations container)

`RecRecord` models one document of the `Recommendations` container: a
daily-insight record or a trend record (Python dicts again; the fields of
both shapes coexist). -/

structure RecRecord where
  id : String
  userId : String
  recType : String
  nutritionalTrends : List (String × String) := []
  healthStatus : List (String × String) := []
  dailyRecommendations : List String := []
  longTermGoals : List String := []
  riskFactors : List String := []
  nutritionalPatterns : List (String × String) := []
  healthMetricsTrend : List (String × String) := []
  behavioralPatterns : List (String × String) := []
  riskTrends : List (String × String) := []
  healthTrajectory : List (String × String) := []
  interventions : List String := []
  generatedAt : Nat
  rangeStart : Nat
  rangeEnd : Nat
  dataPoints : Option Nat := none
deriving DecidableEq

/-- The parsed JSON object of the daily-insight completion. -/
structure InsightResult where
  nutritional_trends : Option (List (String × String)) := none
  health_status : Option (List (String × String)) := none
  daily_recommendations : Option (List String) := none
  long_term_goals : Option (List String) := none
  risk_factors : Option (List String) := none
deriving DecidableEq

inductive InsightOutcome where
  | ok (r : InsightResult)
  | err (msg : String)
deriving DecidableEq

/-- The parsed JSON object of the trend-analysis completion. -/
structure TrendResult where
  nutritional_patterns : Option (List (String × String)) := none
  health_metrics_trend : Option (List (String × String)) := none
  behavioral_patterns : Option (List (String × String)) := none
  risk_trends : Option (List (String × String)) := none
  health_trajectory : Option (List (String × String)) := none
  interventions : Option (List String) := none
deriving DecidableEq

inductive TrendOutcome where
  | ok (r : TrendResult)
  | err (msg : String)
deriving DecidableEq

/-- The id under which a user's daily insights of a given date are stored:
the f-string of user id, `-insights-` and the date. -/
def insightKey (uid : String) (now : Nat) : String :=
  uid ++ "-insights-" ++ toString (dateOf now)

/-- The id under which a user's trend analysis of a given date is stored:
the f-string of user id, `-trends-` and the date. -/
def trendKey (uid : String) (now : Nat) : String :=
  uid ++ "-trends-" ++ toString (dateOf now)

/-- Embeds `HealthDataProcessor.generate_user_daily_insights`: gather the user's
last-7-day items of both kinds; if there are none, return without writing;
otherwise call the completion (outcome oracle `o`) and upsert one
daily-insight record keyed by user and date.  Any exception (including an
inference failure) is caught by the surrounding handler and leaves the
container unchanged. -/
def generate_user_daily_insights (f m : List WorkItem) (recs : List RecRecord)
    (uid : String) (o : InsightOutcome) (now : Nat) : List RecRecord :=
  let recent_cutoff := now - 7 * 86400
  let recent_food := f.filter
    (fun x => decide (x.userId = uid) && decide (recent_cutoff ≤ x.timestamp))
  let recent_medical := m.filter
    (fun x => decide (x.userId = uid) && decide (recent_cutoff ≤ x.timestamp))
  if recent_food.isEmpty && recent_medical.isEmpty then recs
  else
    match o with
    | .err _ => recs
    | .ok r =>
      upsertDoc RecRecord.id recs
        { id := insightKey uid now
          userId := uid
          recType := "daily_insights"
          nutritionalTrends := r.nutritional_trends.getD []
          healthStatus := r.health_status.getD []
          dailyRecommendations := r.daily_recommendations.getD []
          longTermGoals := r.long_term_goals.getD []
          riskFactors := r.risk_factors.getD []
          generatedAt := now
          rangeStart := recent_cutoff
          rangeEnd := now }

/-- Embeds `HealthDataProcessor.analyze_user_health_trends`: gather the user's
last-90-day history; with fewer than 5 food items, return without writing;
otherwise call the completion and upsert one trend record keyed by user
and date, with a `dataPoints` count. -/
def analyze_user_health_trends (f m : List WorkItem) (recs : List RecRecord)
    (uid : String) (o : TrendOutcome) (now : Nat) : List RecRecord :=
  let trend_cutoff := now - 90 * 86400
  let food_history := f.filter
    (fun x => decide (x.userId = uid) && decide (trend_cutoff ≤ x.timestamp))
  let medical_history := m.filter
    (fun x => decide (x.userId = uid) && decide (trend_cutoff ≤ x.timestamp))
  if food_history.length < 5 then recs
  else
    match o with
    | .err _ => recs
    | .ok r =>
      upsertDoc RecRecord.id recs
        { id := trendKey uid now
          userId := uid
          recType := "health_trends"
          nutritionalPatterns := r.nutritional_patterns.getD []
          healthMetricsTrend := r.health_metrics_trend.getD []
          behavioralPatterns := r.behavioral_patterns.getD []
          riskTrends := r.risk_trends.getD []
          healthTrajectory := r.health_trajectory.getD []
          interventions := r.interventions.getD []
          generatedAt := now
          rangeStart := trend_cutoff
          rangeEnd := now
          dataPoints := some (food_history.length + medical_history.length) }

/-! ## Retention cleanup -/

/-- One stored blob: `{name, last_modified}`. -/
structure Blob where
  name : String
  lastModified : Nat
deriving DecidableEq

structure CleanupLog where
  foodVictims : List String
  medVictims : List String
  foodAttempted : List String
  medAttempted : List String
  foodOk : Bool
  medOk : Bool
  blobsAttempted : List String
  blobsOk : Bool
deriving DecidableEq

structure SysState where
  food : List WorkItem
  medical : List WorkItem
  recs : List RecRecord
  foodBlobs : List Blob
  medBlobs : List Blob
deriving DecidableEq

/-- Embeds `HealthDataProcessor.cleanup_old_blobs`: sweep the two blob containers
for blobs last modified before the cutoff and delete each in turn.  A
single `try` wraps both containers, with no per-blob handler: the first
failing delete aborts the rest of the sweep (the exception is caught at
the function boundary, so it does not propagate further). -/
def cleanup_old_blobs (fb mb : List Blob) (cutoff : Nat)
    (ok : String → Bool) : (List Blob × List Blob) × List String × Bool :=
  let fVictims := (fb.filter (fun b => decide (b.lastModified < cutoff))).map
    Blob.name
  let rF := deleteSeq Blob.name fb fVictims ok
  if rF.2.2 then
    let mVictims := (mb.filter (fun b => decide (b.lastModified < cutoff))).map
      Blob.name
    let rM := deleteSeq Blob.name mb mVictims ok
    ((rF.1, rM.1), rF.2.1 ++ rM.2.1, rM.2.2)
  else ((rF.1, mb), rF.2.1, false)

/-- Embeds `HealthDataProcessor.cleanup_old_data`, one firing: delete food items
older than 730 days, then medical items older than 1095 days whose `type`
is not `'critical'`, then sweep the blobs against the food cutoff.  The
delete loops have no per-item handler: the first failing `delete_item`
raises and aborts everything after it in the run (caught by the loop-level
handler). -/
def cleanup_old_data (s : SysState) (okF okM okB : String → Bool)
    (now : Nat) : SysState × CleanupLog :=
  let cleanup_cutoff := now - 730 * 86400
  let fv := (s.food.filter
    (fun x => decide (x.timestamp < cleanup_cutoff))).map WorkItem.id
  let rF := deleteSeq WorkItem.id s.food fv okF
  if rF.2.2 then
    let old_medical_cutoff := now - 1095 * 86400
    let mv := (s.medical.filter (fun x =>
      decide (x.timestamp < old_medical_cutoff) &&
        decide (x.itemType ≠ "critical"))).map WorkItem.id
    let rM := deleteSeq WorkItem.id s.medical mv okM
    if rM.2.2 then
      let rB := cleanup_old_blobs s.foodBlobs s.medBlobs cleanup_cutoff okB
      ({ s with
          food := rF.1
          medical := rM.1
          foodBlobs := rB.1.1
          medBlobs := rB.1.2 },
       { foodVictims := fv
         medVictims := mv
         foodAttempted := rF.2.1
         medAttempted := rM.2.1
         foodOk := true
         medOk := true
         blobsAttempted := rB.2.1
         blobsOk := rB.2.2 })
    else
      ({ s with
          food := rF.1
          medical := rM.1 },
       { foodVictims := fv
         medVictims := mv
         foodAttempted := rF.2.1
         medAttempted := rM.2.1
         foodOk := true
         medOk := false
         blobsAttempted := []
         blobsOk := true })
  else
    ({ s with food := rF.1 },
     { foodVictims := fv
       medVictims := []
       foodAttempted := rF.2.1
       medAttempted := []
       foodOk := false
       medOk := true
       blobsAttempted := []
       blobsOk := true })

/-! ## The orchestrated operations on the shared stores -/

inductive Op where
  | drain (oF : String → FoodOutcome) (oM : String → MedOutcome) (now : Nat)
  | cleanup (okF okM okB : String → Bool) (now : Nat)
  | daily (uid : String) (o : InsightOutcome) (now : Nat)
  | trend (uid : String) (o : TrendOutcome) (now : Nat)

def step (s : SysState) : Op → SysState
  | Op.drain oF oM now =>
    let d := process_pending_analyses s.food s.medical oF oM now
    { s with food := d.food, medical := d.medical }
  | Op.cleanup okF okM okB now => (cleanup_old_data s okF okM okB now).1
  | Op.daily uid o now =>
    { s with recs := (generate_user_daily_insights s.food s.medical s.recs
        uid o now) }
  | Op.trend uid o now =>
    { s with recs := (analyze_user_health_trends s.food s.medical s.recs
        uid o now) }

def run (s : SysState) (ops : List Op) : SysState := ops.foldl step s

/-- Store well-formedness: one document per id, and pending items have no
`processedAt` yet (they are created by the ingestion path and only the
drain's terminal transition sets `processedAt`). -/
def WFStore (s : List WorkItem) : Prop :=
  keysNodup WorkItem.id s ∧
    ∀ x ∈ s, x.status = Status.pending → x.processedAt = none

def WF (s : SysState) : Prop := WFStore s.food ∧ WFStore s.medical

/-- Allowed evolution of the document at one id across one operation:
untouched, deleted, or the single terminal transition
pending → completed/failed that sets `processedAt` (for the first time). -/
def stepOkItem : Option WorkItem → Option WorkItem → Prop
  | none, a => a = none
  | some _, none => True
  | some b, some a =>
    a = b ∨ (b.status = Status.pending
      ∧ (a.status = Status.completed ∨ a.status = Status.failed)
      ∧ b.processedAt = none ∧ ∃ t, a.processedAt = some t)

/-! ## Notification consumer

`process_service_bus_messages` / `handle_notification_message`.  A raw
message either parses (`json.loads`) into an object or raises; the three
handler stubs are oracles which may raise.  `handle_notification_message`
wraps its whole body in `try/except`, so a handler exception is logged and
swallowed there; the receiver loop completes a message whose dispatch
returned and abandons one whose dispatch raised. -/

structure SBMessage where
  /-- Value `none`: `json.loads(str(msg))` raises; `some obj`: the parsed
  object's string fields. -/
  body : Option (List (String × String))
deriving DecidableEq

inductive HandlerKind where
  | urgentHealthAlert
  | dailyReminder
  | analysisRequest
deriving DecidableEq

inductive MsgOutcome where
  | completed
  | abandoned
deriving DecidableEq

def lookupField (obj : List (String × String)) (k : String) : Option String :=
  (obj.find? (fun p => decide (p.1 = k))).map (fun p => p.2)

/-- Which handler stub `handle_notification_message` dispatches to. -/
def dispatchOf (obj : List (String × String)) : Option HandlerKind :=
  match lookupField obj "type" with
  | some "urgent_health_alert" => some HandlerKind.urgentHealthAlert
  | some "daily_reminder" => some HandlerKind.dailyReminder
  | some "analysis_request" => some HandlerKind.analysisRequest
  | _ => none

/-- Embeds `handle_notification_message`: dispatch on the `type` field and run the
handler (`handler k = some msg` models the handler raising).  The body is
wrapped in `try/except`, so the function always returns normally; it
reports which handler ran and the swallowed error, if any. -/
def handle_notification_message (obj : List (String × String))
    (handler : HandlerKind → Option String) :
    Option HandlerKind × Option String :=
  match dispatchOf obj with
  | some k => (some k, handler k)
  | none => (none, none)

/-- One message of the receiver loop in `process_service_bus_messages`:
parse, dispatch, then `complete_message`; the `except` around this body
calls `abandon_message`.  Returns the message outcome together with the
dispatch report. -/
def process_service_bus_message (msg : SBMessage)
    (handler : HandlerKind → Option String) :
    MsgOutcome × Option HandlerKind × Option String :=
  match msg.body with
  | none => (MsgOutcome.abandoned, none, none)
  | some obj =>
    let d := handle_notification_message obj handler
    (MsgOutcome.completed, d.1, d.2)

def cxFood5 : List WorkItem :=
  [{ id := "a1", userId := "u1", timestamp := 1, status := Status.completed },
   { id := "a2", userId := "u1", timestamp := 2, status := Status.completed },
   { id := "a3", userId := "u1", timestamp := 3, status := Status.completed },
   { id := "a4", userId := "u1", timestamp := 4, status := Status.completed },
   { id := "a5", userId := "u1", timestamp := 5, status := Status.completed }]

def cxOldFood : WorkItem :=
  { id := "of", userId := "u", timestamp := 1269 * 86400,
    status := Status.completed }

def cxNewFood : WorkItem :=
  { id := "nf", userId := "u", timestamp := 1271 * 86400,
    status := Status.completed }

def cxCriticalMed : WorkItem :=
  { id := "cm", userId := "u", timestamp := 0, status := Status.completed,
    itemType := "critical" }

def cxOldMed : WorkItem :=
  { id := "om", userId := "u", timestamp := 900 * 86400,
    status := Status.completed, itemType := "medical_document" }

def cxCleanupState : SysState :=
  { food := [cxOldFood, cxNewFood]
    medical := [cxCriticalMed, cxOldMed]
    recs := []
    foodBlobs := []
    medBlobs := [] }

def cxOldFood2 : WorkItem :=
  { id := "of2", userId := "u", timestamp := 1269 * 86400,
    status := Status.completed }

def cxOldBlob : Blob := { name := "b1", lastModified := 0 }

def cxAbortState : SysState :=
  { food := [cxOldFood, cxOldFood2]
    medical := [cxOldMed]
    recs := []
    foodBlobs := [cxOldBlob]
    medBlobs := [] }

def cxAbortRun : SysState × CleanupLog :=
  cleanup_old_data cxAbortState (fun v => decide (v ≠ "of"))
    (fun _ => true) (fun _ => true) (2000 * 86400)

theorem gapped_pairwise {g : Nat} {trace : List Nat} (h : gapped g trace) :
    trace.Pairwise (fun a b => a + g ≤ b) := by
  induction trace with
  | nil => exact List.Pairwise.nil
  | cons a tl ih =>
    cases tl with
    | nil => exact List.pairwise_singleton _ _
    | cons b tl' =>
      have hab : a + g ≤ b := (List.chain'_cons.mp h).1
      have htl : gapped g (b :: tl') := (List.chain'_cons.mp h).2
      have hp := ih htl
      refine List.Pairwise.cons ?_ hp
      intro x hx
      rcases List.mem_cons.mp hx with hx | hx
      · subst hx; omega
      · have hbx : b + g ≤ x := (List.pairwise_cons.mp hp).1 x hx
        omega

theorem fires_pairwise_ne_date {g : Nat} {trig : Nat → Bool} {trace : List Nat}
    (win : ∀ t t', trig t = true → trig t' = true → dateOf t = dateOf t' →
      t + g ≤ t' → False)
    (h : gapped g trace) :
    (firesOf trig trace).Pairwise (fun a b => dateOf a ≠ dateOf b) := by
  have hp := gapped_pairwise h
  unfold firesOf
  induction trace with
  | nil => exact List.Pairwise.nil
  | cons a tl ih =>
    rcases List.pairwise_cons.mp hp with ⟨ha, htl⟩
    by_cases hta : trig a = true
    · rw [List.filter_cons_of_pos hta]
      refine List.Pairwise.cons ?_ (ih (List.chain'_cons'.mp h).2 htl)
      intro x hx hdate
      have hx' := List.mem_filter.mp hx
      exact win a x hta hx'.2 hdate (ha x hx'.1)
    · rw [List.filter_cons_of_neg (by simpa using hta)]
      exact ih (List.chain'_cons'.mp h).2 htl

/-- Two checks that both satisfy the daily trigger on the same date are
less than 60 seconds apart: the trigger window is one minute wide. -/
theorem dailyTrigger_window (t t' : Nat) (h : dailyTrigger t = true)
    (h' : dailyTrigger t' = true) (hd : dateOf t = dateOf t')
    (hgap : t + 60 ≤ t') : False := by
  simp only [dailyTrigger, hourOf, minuteOf, dateOf, Bool.and_eq_true,
    beq_iff_eq] at h h' hd
  omega

/-- Two checks that both satisfy the weekly-trend trigger on the same date
are less than 3600 seconds apart: the window is one hour wide. -/
theorem trendTrigger_window (t t' : Nat) (h : trendTrigger t = true)
    (h' : trendTrigger t' = true) (hd : dateOf t = dateOf t')
    (hgap : t + 3600 ≤ t') : False := by
  simp only [trendTrigger, hourOf, weekdayOf, dateOf, Bool.and_eq_true,
    beq_iff_eq] at h h' hd
  omega

theorem cleanupTrigger_window (dom : Nat → Nat) (t t' : Nat)
    (h : cleanupTrigger dom t = true) (h' : cleanupTrigger dom t' = true)
    (hd : dateOf t = dateOf t') (hgap : t + 3600 ≤ t') : False := by
  simp only [cleanupTrigger, hourOf, dateOf, Bool.and_eq_true,
    beq_iff_eq] at h h' hd
  omega

/-- C1 (amended).  Along any trace of trigger checks of one loop in which
consecutive checks are at least one sleep interval apart (60 s for the
daily-insight loop, 3600 s for the trend and cleanup loops), each job
fires at most once per calendar date: the fires have pairwise distinct
dates.  This holds because each trigger window (one minute resp. one hour
of a single date) is no wider than the sleep interval — not because of
any "already ran today" guard, which the code does not have. -/
theorem periodic_jobs_fire_at_most_once_per_date (trace : List Nat)
    (dom : Nat → Nat) :
    (gapped 60 trace →
      (firesOf dailyTrigger trace).Pairwise (fun a b => dateOf a ≠ dateOf b))
    ∧ (gapped 3600 trace →
      (firesOf trendTrigger trace).Pairwise (fun a b => dateOf a ≠ dateOf b))
    ∧ (gapped 3600 trace →
      (firesOf (cleanupTrigger dom) trace).Pairwise
        (fun a b => dateOf a ≠ dateOf b)) := by
  refine ⟨fun h => ?_, fun h => ?_, fun h => ?_⟩
  · exact fires_pairwise_ne_date dailyTrigger_window h
  · exact fires_pairwise_ne_date trendTrigger_window h
  · exact fires_pairwise_ne_date (cleanupTrigger_window dom) h

theorem periodic_jobs_fire_witness :
    ((firesOf dailyTrigger [21600, 21700]).Pairwise
      (fun a b => dateOf a ≠ dateOf b))
    ∧ ((firesOf trendTrigger [288000, 291600]).Pairwise
      (fun a b => dateOf a ≠ dateOf b)) :=
  ⟨(periodic_jobs_fire_at_most_once_per_date [21600, 21700] id).1
      (by constructor <;> simp),
   (periodic_jobs_fire_at_most_once_per_date [288000, 291600] id).2.1
      (by constructor <;> simp)⟩

/-- C1 (counterexample).  The firing decision of the daily-insight loop is
the stateless predicate `dailyTrigger` alone: it carries no
"already ran today" state.  Two checks 30 seconds apart inside the
matching minute 06:00 of the same date both fire, so the trigger predicate
being re-true within the matching minute does cause a duplicate firing;
only the 60-second spacing of the actual checks prevents it. -/
theorem daily_guard_counterexample :
    dailyTrigger 21600 = true ∧ dailyTrigger 21630 = true ∧
    dateOf 21630 = dateOf 21600 ∧
    firesOf dailyTrigger [21600, 21630] = [21600, 21630] := by
  refine ⟨by decide, by decide, by decide, by decide⟩

section StoreLemmas

variable {α : Type} (key : α → String)

theorem findDoc_nil (i : String) : findDoc key ([] : List α) i = none := rfl

theorem findDoc_cons (y : α) (ys : List α) (i : String) :
    findDoc key (y :: ys) i = if key y = i then some y else findDoc key ys i := by
  by_cases h : key y = i <;> simp [findDoc, List.find?_cons, h]

theorem findDoc_upsertDoc (s : List α) (x : α) (i : String) :
    findDoc key (upsertDoc key s x) i =
      if i = key x then some x else findDoc key s i := by
  induction s with
  | nil =>
    by_cases hi : i = key x
    · simp [upsertDoc, findDoc_cons, findDoc_nil, hi]
    · have hxi : key x ≠ i := fun h => hi h.symm
      simp [upsertDoc, findDoc_cons, findDoc_nil, hi, hxi]
  | cons y ys ih =>
    by_cases hy : key y = key x
    · by_cases hi : i = key x
      · simp [upsertDoc, hy, findDoc_cons, hi]
      · have hxi : key x ≠ i := fun h => hi h.symm
        have hyi : key y ≠ i := by rw [hy]; exact hxi
        simp [upsertDoc, hy, findDoc_cons, hi, hxi, hyi]
    · by_cases hi : i = key x
      · have hyi : key y ≠ i := by rw [hi]; exact hy
        subst hi
        simp [upsertDoc, hy, findDoc_cons, hyi, ih]
      · simp [upsertDoc, hy, findDoc_cons, ih, hi]

theorem findDoc_removeDoc (s : List α) (i j : String) :
    findDoc key (removeDoc key s i) j =
      if j = i then none else findDoc key s j := by
  induction s with
  | nil => by_cases h : j = i <;> simp [removeDoc, findDoc_nil, h]
  | cons y ys ih =>
    by_cases hy : key y = i
    · have h1 : removeDoc key (y :: ys) i = removeDoc key ys i := by
        simp [removeDoc, List.filter_cons, hy]
      rw [h1, ih]
      by_cases hj : j = i
      · simp [hj]
      · have hyj : key y ≠ j := by rw [hy]; exact fun h => hj h.symm
        simp [hj, findDoc_cons, hyj]
    · have h1 : removeDoc key (y :: ys) i = y :: removeDoc key ys i := by
        simp [removeDoc, List.filter_cons, hy]
      rw [h1]
      by_cases hj : j = i
      · subst hj
        simp [findDoc_cons, hy, ih]
      · by_cases hyj : key y = j <;> simp [findDoc_cons, hyj, ih, hj]

theorem mem_removeDoc {s : List α} {x : α} {i : String} :
    x ∈ removeDoc key s i ↔ x ∈ s ∧ key x ≠ i := by
  simp [removeDoc, List.mem_filter]

theorem mem_keys_upsertDoc (s : List α) (x : α) (i : String) :
    i ∈ (upsertDoc key s x).map key ↔ i = key x ∨ i ∈ s.map key := by
  induction s with
  | nil => simp [upsertDoc]
  | cons y ys ih =>
    by_cases hy : key y = key x
    · have he : upsertDoc key (y :: ys) x = x :: ys := by
        simp [upsertDoc, hy]
      rw [he, List.map_cons, List.map_cons, List.mem_cons, List.mem_cons, hy]
      tauto
    · have he : upsertDoc key (y :: ys) x = y :: upsertDoc key ys x := by
        simp [upsertDoc, hy]
      rw [he, List.map_cons, List.mem_cons, List.map_cons, List.mem_cons, ih]
      tauto

theorem keysNodup_upsertDoc (s : List α) (x : α) (h : keysNodup key s) :
    keysNodup key (upsertDoc key s x) := by
  induction s with
  | nil => simp [upsertDoc, keysNodup]
  | cons y ys ih =>
    have hys : keysNodup key ys := (List.nodup_cons.mp h).2
    have hyn : key y ∉ ys.map key := (List.nodup_cons.mp h).1
    by_cases hy : key y = key x
    · unfold keysNodup at *
      simp only [upsertDoc, hy, if_pos, List.map_cons]
      rw [List.nodup_cons]
      exact ⟨by rw [← hy]; exact hyn, hys⟩
    · unfold keysNodup at *
      simp only [upsertDoc, hy, if_neg, List.map_cons, not_false_iff]
      rw [List.nodup_cons]
      refine ⟨?_, ih hys⟩
      intro hmem
      rcases (mem_keys_upsertDoc key ys x (key y)).mp hmem with h1 | h1
      · exact hy h1
      · exact hyn h1

theorem keysNodup_removeDoc (s : List α) (i : String) (h : keysNodup key s) :
    keysNodup key (removeDoc key s i) := by
  unfold keysNodup removeDoc at *
  exact ((List.filter_sublist s).map key).nodup h

theorem findDoc_mem {s : List α} {i : String} {x : α}
    (h : findDoc key s i = some x) : x ∈ s ∧ key x = i := by
  refine ⟨List.mem_of_find?_eq_some h, ?_⟩
  have := List.find?_some h
  simpa using this

theorem findDoc_eq_none_iff {s : List α} {i : String} :
    findDoc key s i = none ↔ ∀ x ∈ s, key x ≠ i := by
  simp [findDoc, List.find?_eq_none]

theorem findDoc_eq_some_of_mem {s : List α} {x : α}
    (hnd : keysNodup key s) (hx : x ∈ s) : findDoc key s (key x) = some x := by
  induction s with
  | nil => cases hx
  | cons y ys ih =>
    rcases List.mem_cons.mp hx with h | h
    · subst h
      simp [findDoc_cons]
    · have hys : keysNodup key ys := (List.nodup_cons.mp hnd).2
      have hyn : key y ∉ ys.map key := (List.nodup_cons.mp hnd).1
      have hne : key y ≠ key x := by
        intro he
        exact hyn (he ▸ List.mem_map_of_mem key h)
      rw [findDoc_cons, if_neg hne]
      exact ih hys h

theorem key_inj {s : List α} {x y : α} (hnd : keysNodup key s)
    (hx : x ∈ s) (hy : y ∈ s) (hk : key x = key y) : x = y := by
  have h1 := findDoc_eq_some_of_mem key hnd hx
  have h2 := findDoc_eq_some_of_mem key hnd hy
  rw [hk, h2] at h1
  exact (Option.some.inj h1).symm

theorem countKey_eq_zero {s : List α} {i : String} :
    countKey key s i = 0 ↔ ∀ x ∈ s, key x ≠ i := by
  simp [countKey, List.countP_eq_zero]

theorem countKey_upsertDoc (s : List α) (x : α) (hnd : keysNodup key s) :
    countKey key (upsertDoc key s x) (key x) = 1 := by
  induction s with
  | nil => simp [upsertDoc, countKey]
  | cons y ys ih =>
    have hys : keysNodup key ys := (List.nodup_cons.mp hnd).2
    have hyn : key y ∉ ys.map key := (List.nodup_cons.mp hnd).1
    by_cases hy : key y = key x
    · have hz : countKey key ys (key x) = 0 := by
        rw [countKey_eq_zero]
        intro z hz he
        exact hyn (by rw [hy, ← he]; exact List.mem_map_of_mem key hz)
      simp only [upsertDoc, if_pos hy, countKey, List.countP_cons] at hz ⊢
      simp [hz]
    · have hih := ih hys
      simp only [upsertDoc, if_neg hy, countKey, List.countP_cons] at hih ⊢
      simp [hy, hih]

theorem keysNodup_foldl_upsertDoc (l : List α) (s : List α)
    (h : keysNodup key s) : keysNodup key (l.foldl (upsertDoc key) s) := by
  induction l generalizing s with
  | nil => exact h
  | cons x l' ih =>
    exact ih (upsertDoc key s x) (keysNodup_upsertDoc key s x h)

theorem findDoc_foldl_upsertDoc (l : List α) (s : List α) (i : String)
    (hl : (l.map key).Nodup) :
    findDoc key (l.foldl (upsertDoc key) s) i =
      (findDoc key l i).or (findDoc key s i) := by
  induction l generalizing s with
  | nil => simp [findDoc_nil]
  | cons x l' ih =>
    have hl' : (l'.map key).Nodup := (List.nodup_cons.mp hl).2
    have hxn : key x ∉ l'.map key := (List.nodup_cons.mp hl).1
    rw [List.foldl_cons, ih (upsertDoc key s x) hl', findDoc_cons,
      findDoc_upsertDoc]
    by_cases hi : i = key x
    · subst hi
      have hnone : findDoc key l' (key x) = none := by
        rw [findDoc_eq_none_iff]
        intro z hz he
        exact hxn (he ▸ List.mem_map_of_mem key hz)
      simp [hnone, Option.or]
    · have hxi : key x ≠ i := fun h => hi h.symm
      simp [if_neg hi, if_neg hxi]

theorem deleteSeq_attempted (s : List α) (vs : List String) (ok : String → Bool) :
    (deleteSeq key s vs ok).2.1 =
      vs.takeWhile ok ++ (vs.dropWhile ok).take 1 := by
  induction vs generalizing s with
  | nil => simp [deleteSeq]
  | cons v tl ih =>
    by_cases hv : ok v
    · simp [deleteSeq, hv, List.takeWhile_cons, List.dropWhile_cons, ih]
    · rw [Bool.not_eq_true] at hv
      simp [deleteSeq, hv, List.takeWhile_cons, List.dropWhile_cons]

theorem deleteSeq_success (s : List α) (vs : List String) (ok : String → Bool) :
    (deleteSeq key s vs ok).2.2 = vs.all ok := by
  induction vs generalizing s with
  | nil => simp [deleteSeq]
  | cons v tl ih =>
    by_cases hv : ok v <;> simp [deleteSeq, hv, ih]

theorem findDoc_deleteSeq_of_not_attempted (s : List α) (vs : List String)
    (ok : String → Bool) (i : String) (h : i ∉ (deleteSeq key s vs ok).2.1) :
    findDoc key (deleteSeq key s vs ok).1 i = findDoc key s i := by
  induction vs generalizing s with
  | nil => simp [deleteSeq]
  | cons v tl ih =>
    by_cases hv : ok v
    · simp only [deleteSeq, hv, if_pos] at h ⊢
      have hvi : i ≠ v := fun he => h (by simp [he])
      have hti : i ∉ (deleteSeq key (removeDoc key s v) tl ok).2.1 :=
        fun hm => h (by simp [hm])
      rw [ih (removeDoc key s v) hti, findDoc_removeDoc, if_neg hvi]
    · simp [deleteSeq, hv]

theorem findDoc_deleteSeq_or_none (s : List α) (vs : List String)
    (ok : String → Bool) (i : String) :
    findDoc key (deleteSeq key s vs ok).1 i = findDoc key s i ∨
      findDoc key (deleteSeq key s vs ok).1 i = none := by
  induction vs generalizing s with
  | nil => simp [deleteSeq]
  | cons v tl ih =>
    by_cases hv : ok v
    · simp only [deleteSeq, hv, if_pos]
      rcases ih (removeDoc key s v) with h | h
      · rw [h, findDoc_removeDoc]
        by_cases hiv : i = v
        · exact Or.inr (by simp [hiv])
        · exact Or.inl (by simp [hiv])
      · exact Or.inr h
    · simp [deleteSeq, hv]

theorem mem_deleteSeq_all_ok (s : List α) (vs : List String)
    (ok : String → Bool) (hok : ∀ v ∈ vs, ok v = true) (x : α) :
    x ∈ (deleteSeq key s vs ok).1 ↔ x ∈ s ∧ key x ∉ vs := by
  induction vs generalizing s with
  | nil => simp [deleteSeq]
  | cons v tl ih =>
    have hv : ok v = true := hok v (List.mem_cons_self v tl)
    have htl : ∀ u ∈ tl, ok u = true := fun u hu => hok u (List.mem_cons_of_mem v hu)
    simp only [deleteSeq, hv, if_pos]
    rw [ih (removeDoc key s v) htl, mem_removeDoc]
    simp [List.mem_cons, not_or]
    tauto

theorem keysNodup_deleteSeq (s : List α) (vs : List String)
    (ok : String → Bool) (h : keysNodup key s) :
    keysNodup key (deleteSeq key s vs ok).1 := by
  induction vs generalizing s with
  | nil => simpa [deleteSeq] using h
  | cons v tl ih =>
    by_cases hv : ok v
    · simp only [deleteSeq, hv, if_pos]
      exact ih (removeDoc key s v) (keysNodup_removeDoc key s v h)
    · simpa [deleteSeq, hv] using h

theorem mem_map_key_filter {s : List α} {x : α} (p : α → Bool)
    (hnd : keysNodup key s) (hx : x ∈ s) :
    key x ∈ (s.filter p).map key ↔ p x = true := by
  constructor
  · intro h
    rcases List.mem_map.mp h with ⟨y, hy, hk⟩
    have hy' := List.mem_filter.mp hy
    have := key_inj key hnd hy'.1 hx hk
    subst this
    exact hy'.2
  · intro h
    exact List.mem_map_of_mem key (List.mem_filter.mpr ⟨hx, h⟩)

end StoreLemmas

theorem sortByTs_sorted (l : List WorkItem) : (sortByTs l).Sorted tsRel :=
  List.sorted_insertionSort tsRel l

theorem sortByTs_perm (l : List WorkItem) : List.Perm (sortByTs l) l :=
  List.perm_insertionSort tsRel l

theorem process_food_analysis_id (it : WorkItem) (o : FoodOutcome) (now : Nat) :
    (process_food_analysis it o now).id = it.id := by
  cases o <;> rfl

theorem process_medical_analysis_id (it : WorkItem) (o : MedOutcome) (now : Nat) :
    (process_medical_analysis it o now).id = it.id := by
  cases o <;> rfl

theorem process_food_analysis_status (it : WorkItem) (o : FoodOutcome)
    (now : Nat) :
    ((process_food_analysis it o now).status = Status.completed ∨
      (process_food_analysis it o now).status = Status.failed) ∧
    (process_food_analysis it o now).processedAt = some now := by
  cases o <;> simp [process_food_analysis]

theorem process_medical_analysis_status (it : WorkItem) (o : MedOutcome)
    (now : Nat) :
    ((process_medical_analysis it o now).status = Status.completed ∨
      (process_medical_analysis it o now).status = Status.failed) ∧
    (process_medical_analysis it o now).processedAt = some now := by
  cases o <;> simp [process_medical_analysis]

theorem countKey_eq_one_of_mem {α : Type} (key : α → String) {s : List α}
    {x : α} (hnd : keysNodup key s) (hx : x ∈ s) :
    countKey key s (key x) = 1 := by
  induction s with
  | nil => cases hx
  | cons y ys ih =>
    have hys : keysNodup key ys := (List.nodup_cons.mp hnd).2
    have hyn : key y ∉ ys.map key := (List.nodup_cons.mp hnd).1
    rcases List.mem_cons.mp hx with h | h
    · subst h
      have hz : countKey key ys (key x) = 0 :=
        (countKey_eq_zero key).mpr
          (fun z hz he => hyn (by rw [← he]; exact List.mem_map_of_mem key hz))
      simp only [countKey, List.countP_cons] at hz ⊢
      simp [hz]
    · have hxy : key y ≠ key x :=
        fun he => hyn (he ▸ List.mem_map_of_mem key h)
      have hih := ih hys h
      simp only [countKey, List.countP_cons] at hih ⊢
      simp [hxy, hih]

theorem mem_pendingOf {s : List WorkItem} {x : WorkItem} :
    x ∈ pendingOf s ↔ x ∈ s ∧ x.status = Status.pending := by
  unfold pendingOf
  rw [(sortByTs_perm _).mem_iff, List.mem_filter]
  simp

theorem pendingOf_keysNodup {s : List WorkItem}
    (h : keysNodup WorkItem.id s) : keysNodup WorkItem.id (pendingOf s) := by
  unfold keysNodup at *
  have hperm := (sortByTs_perm
    (s.filter (fun x => decide (x.status = Status.pending)))).map WorkItem.id
  rw [(show pendingOf s = sortByTs
        (s.filter (fun x => decide (x.status = Status.pending))) from rfl),
    hperm.nodup_iff]
  exact ((List.filter_sublist s).map WorkItem.id).nodup h

section Drain

variable (proc : WorkItem → WorkItem)

theorem drain_writes_keys (hid : ∀ x, (proc x).id = x.id)
    (s : List WorkItem) :
    ((pendingOf s).map proc).map WorkItem.id =
      (pendingOf s).map WorkItem.id := by
  rw [List.map_map]
  exact List.map_congr_left (fun x _ => hid x)

theorem drainStore_keysNodup (s : List WorkItem)
    (h : keysNodup WorkItem.id s) :
    keysNodup WorkItem.id (drainStore s proc).1 :=
  keysNodup_foldl_upsertDoc WorkItem.id _ s h

/-- The central drain lemma: after one drain of a container, the document
at id `i` is unchanged if it was absent or non-pending, and is the
processed version of itself if it was pending. -/
theorem findDoc_drainStore (hid : ∀ x, (proc x).id = x.id)
    (s : List WorkItem) (h : keysNodup WorkItem.id s) (i : String) :
    findDoc WorkItem.id (drainStore s proc).1 i =
      match findDoc WorkItem.id s i with
      | none => none
      | some b =>
        if b.status = Status.pending then some (proc b) else some b := by
  have hfil : keysNodup WorkItem.id (pendingOf s) := pendingOf_keysNodup h
  have hw : (((pendingOf s).map proc).map WorkItem.id).Nodup := by
    rw [drain_writes_keys proc hid s]
    exact hfil
  show findDoc WorkItem.id
    (((pendingOf s).map proc).foldl (upsertDoc WorkItem.id) s) i = _
  rw [findDoc_foldl_upsertDoc WorkItem.id _ _ _ hw]
  cases hfd : findDoc WorkItem.id s i with
  | none =>
    have hnone : findDoc WorkItem.id ((pendingOf s).map proc) i = none := by
      rw [findDoc_eq_none_iff]
      intro y hy hyi
      rcases List.mem_map.mp hy with ⟨z, hz, rfl⟩
      have hzid : z.id = i := by rw [← hid z]; exact hyi
      have hzs := (mem_pendingOf.mp hz).1
      have := (findDoc_eq_none_iff WorkItem.id).mp hfd z hzs
      exact this hzid
    simp [hnone, Option.or]
  | some b =>
    rcases findDoc_mem WorkItem.id hfd with ⟨hbmem, hbid⟩
    by_cases hp : b.status = Status.pending
    · have hbp : b ∈ pendingOf s := mem_pendingOf.mpr ⟨hbmem, hp⟩
      have hsome : findDoc WorkItem.id ((pendingOf s).map proc) i =
          some (proc b) := by
        have hmem : proc b ∈ (pendingOf s).map proc :=
          List.mem_map_of_mem proc hbp
        have := findDoc_eq_some_of_mem WorkItem.id hw hmem
        rw [hid, hbid] at this
        exact this
      simp [hsome, Option.or, hp]
    · have hnone : findDoc WorkItem.id ((pendingOf s).map proc) i = none := by
        rw [findDoc_eq_none_iff]
        intro y hy hyi
        rcases List.mem_map.mp hy with ⟨z, hz, rfl⟩
        have hzid : z.id = i := by rw [← hid z]; exact hyi
        have hzs := mem_pendingOf.mp hz
        have hzfd : findDoc WorkItem.id s i = some z := by
          rw [← hzid]
          exact findDoc_eq_some_of_mem WorkItem.id h hzs.1
        rw [hfd] at hzfd
        exact hp ((Option.some.inj hzfd) ▸ hzs.2)
      simp [hnone, Option.or, hp]

theorem countKey_drain_writes (hid : ∀ x, (proc x).id = x.id)
    (s : List WorkItem) (i : String) :
    countKey WorkItem.id ((pendingOf s).map proc) i =
      countKey WorkItem.id (pendingOf s) i := by
  unfold countKey
  rw [List.countP_map]
  apply List.countP_congr
  intro x _
  simp [Function.comp, hid x]

end Drain

/-- C2 (amended).  Within one `process_pending_analyses` call the items
are processed as the pending food snapshot first, in non-decreasing
`timestamp` order, followed by the pending medical snapshot, in
non-decreasing `timestamp` order; each snapshot is exactly the pending
items of its container.  No order is guaranteed across the two kinds
merged together. -/
theorem drain_processes_each_kind_in_timestamp_order (f m : List WorkItem)
    (oF : String → FoodOutcome) (oM : String → MedOutcome) (now : Nat) :
    (process_pending_analyses f m oF oM now).seq =
      (process_pending_analyses f m oF oM now).foodSeq ++
        (process_pending_analyses f m oF oM now).medSeq
    ∧ (process_pending_analyses f m oF oM now).foodSeq.Sorted tsRel
    ∧ (process_pending_analyses f m oF oM now).medSeq.Sorted tsRel
    ∧ List.Perm (process_pending_analyses f m oF oM now).foodSeq
        (f.filter (fun x => decide (x.status = Status.pending)))
    ∧ List.Perm (process_pending_analyses f m oF oM now).medSeq
        (m.filter (fun x => decide (x.status = Status.pending))) :=
  ⟨rfl, sortByTs_sorted _, sortByTs_sorted _, sortByTs_perm _, sortByTs_perm _⟩

/-- C2 (counterexample).  A pending medical item older than a pending food
item is processed after it: the merged processing sequence of one drain
call is not non-decreasing in `timestamp` across both kinds. -/
theorem drain_order_counterexample :
    ((process_pending_analyses [cxFoodItem] [cxMedItem]
        (fun _ => FoodOutcome.ok {}) (fun _ => MedOutcome.ok "" {})
        200).seq).map WorkItem.timestamp = [100, 50] ∧
    ¬ ((process_pending_analyses [cxFoodItem] [cxMedItem]
        (fun _ => FoodOutcome.ok {}) (fun _ => MedOutcome.ok "" {})
        200).seq).Sorted tsRel := by
  constructor
  · rfl
  · show ¬ List.Pairwise tsRel _
    have hrw : (process_pending_analyses [cxFoodItem] [cxMedItem]
        (fun _ => FoodOutcome.ok {}) (fun _ => MedOutcome.ok "" {})
        200).seq = [cxFoodItem, cxMedItem] := by rfl
    rw [hrw]
    intro h
    have := (List.pairwise_cons.mp h).1 cxMedItem (List.mem_singleton.mpr rfl)
    simp [tsRel, cxFoodItem, cxMedItem] at this

theorem drain_failed_core (s : List WorkItem) (proc proc2 : WorkItem → WorkItem)
    (hid : ∀ x, (proc x).id = x.id) (hid2 : ∀ x, (proc2 x).id = x.id)
    (hnd : keysNodup WorkItem.id s) (it : WorkItem) (hmem : it ∈ s)
    (hpend : it.status = Status.pending) :
    findDoc WorkItem.id (drainStore s proc).1 it.id = some (proc it)
    ∧ countKey WorkItem.id (drainStore s proc).2.2 it.id = 1
    ∧ ((proc it).status ≠ Status.pending →
        (∀ x ∈ (drainStore (drainStore s proc).1 proc2).2.1, x.id ≠ it.id)
        ∧ findDoc WorkItem.id (drainStore (drainStore s proc).1 proc2).1 it.id
            = some (proc it)) := by
  have hfd : findDoc WorkItem.id s it.id = some it :=
    findDoc_eq_some_of_mem WorkItem.id hnd hmem
  have h1 : findDoc WorkItem.id (drainStore s proc).1 it.id = some (proc it) := by
    rw [findDoc_drainStore proc hid s hnd, hfd]
    simp [hpend]
  have hnd1 : keysNodup WorkItem.id (drainStore s proc).1 :=
    drainStore_keysNodup proc s hnd
  refine ⟨h1, ?_, ?_⟩
  · show countKey WorkItem.id ((pendingOf s).map proc) it.id = 1
    rw [countKey_drain_writes proc hid s]
    have hp : it ∈ pendingOf s := mem_pendingOf.mpr ⟨hmem, hpend⟩
    exact countKey_eq_one_of_mem WorkItem.id (pendingOf_keysNodup hnd) hp
  · intro hterm
    constructor
    · intro x hx hxid
      have hx' : x ∈ (drainStore s proc).1 ∧ x.status = Status.pending :=
        mem_pendingOf.mp hx
      have hfx : findDoc WorkItem.id (drainStore s proc).1 x.id = some x :=
        findDoc_eq_some_of_mem WorkItem.id hnd1 hx'.1
      rw [hxid, h1] at hfx
      have hxe : proc it = x := Option.some.inj hfx
      have h2 := hx'.2
      rw [← hxe] at h2
      exact hterm h2
    · rw [findDoc_drainStore proc2 hid2 _ hnd1, h1]
      simp [hterm]

/-- C4.  A pending food (resp. medical) WorkItem whose processing fails —
payload fetch error, inference call error, or non-JSON inference result —
is marked `failed` by the drain with the exception text as its `error`
(non-empty whenever the exception text is) and `processedAt` set, is
upserted exactly once, and a second drain call neither puts it in its
processing sequence nor changes it again: failures are not retried. -/
theorem failed_items_terminal_and_not_retried :
    (∀ (f m : List WorkItem) (oF oF2 : String → FoodOutcome)
        (oM oM2 : String → MedOutcome) (now now2 : Nat) (it : WorkItem)
        (msg : String), keysNodup WorkItem.id f → it ∈ f →
        it.status = Status.pending →
        (oF it.id = FoodOutcome.fetchErr msg ∨
          oF it.id = FoodOutcome.inferErr msg ∨
          oF it.id = FoodOutcome.parseErr msg) →
        msg ≠ "" →
        ∃ it',
          findDoc WorkItem.id
              (process_pending_analyses f m oF oM now).food it.id = some it'
          ∧ it'.status = Status.failed
          ∧ it'.error = some msg
          ∧ it'.error ≠ some ""
          ∧ it'.processedAt = some now
          ∧ countKey WorkItem.id
              (process_pending_analyses f m oF oM now).foodWrites it.id = 1
          ∧ (∀ x ∈ (process_pending_analyses
                (process_pending_analyses f m oF oM now).food
                (process_pending_analyses f m oF oM now).medical
                oF2 oM2 now2).foodSeq, x.id ≠ it.id)
          ∧ findDoc WorkItem.id (process_pending_analyses
                (process_pending_analyses f m oF oM now).food
                (process_pending_analyses f m oF oM now).medical
                oF2 oM2 now2).food it.id = some it')
    ∧ (∀ (f m : List WorkItem) (oF oF2 : String → FoodOutcome)
        (oM oM2 : String → MedOutcome) (now now2 : Nat) (it : WorkItem)
        (msg : String), keysNodup WorkItem.id m → it ∈ m →
        it.status = Status.pending →
        (oM it.id = MedOutcome.fetchErr msg ∨
          oM it.id = MedOutcome.inferErr msg ∨
          oM it.id = MedOutcome.parseErr msg) →
        msg ≠ "" →
        ∃ it',
          findDoc WorkItem.id
              (process_pending_analyses f m oF oM now).medical it.id = some it'
          ∧ it'.status = Status.failed
          ∧ it'.error = some msg
          ∧ it'.error ≠ some ""
          ∧ it'.processedAt = some now
          ∧ countKey WorkItem.id
              (process_pending_analyses f m oF oM now).medWrites it.id = 1
          ∧ (∀ x ∈ (process_pending_analyses
                (process_pending_analyses f m oF oM now).food
                (process_pending_analyses f m oF oM now).medical
                oF2 oM2 now2).medSeq, x.id ≠ it.id)
          ∧ findDoc WorkItem.id (process_pending_analyses
                (process_pending_analyses f m oF oM now).food
                (process_pending_analyses f m oF oM now).medical
                oF2 oM2 now2).medical it.id = some it') := by
  constructor
  · intro f m oF oF2 oM oM2 now now2 it msg hnd hmem hpend ho hmsg
    have hidF : ∀ x, ((fun x => process_food_analysis x (oF x.id) now) x).id
        = x.id := fun x => process_food_analysis_id x _ now
    have hidF2 : ∀ x, ((fun x => process_food_analysis x (oF2 x.id) now2) x).id
        = x.id := fun x => process_food_analysis_id x _ now2
    have core := drain_failed_core f _ _ hidF hidF2 hnd it hmem hpend
    have hstat : (process_food_analysis it (oF it.id) now).status = Status.failed
        ∧ (process_food_analysis it (oF it.id) now).error = some msg
        ∧ (process_food_analysis it (oF it.id) now).processedAt = some now := by
      rcases ho with h | h | h <;> rw [h] <;> simp [process_food_analysis]
    have hterm : (process_food_analysis it (oF it.id) now).status ≠
        Status.pending := by
      rw [hstat.1]
      intro hcon
      cases hcon
    refine ⟨process_food_analysis it (oF it.id) now, core.1, hstat.1,
      hstat.2.1, ?_, hstat.2.2, core.2.1, (core.2.2 hterm).1,
      (core.2.2 hterm).2⟩
    rw [hstat.2.1]
    intro hcon
    exact hmsg (Option.some.inj hcon)
  · intro f m oF oF2 oM oM2 now now2 it msg hnd hmem hpend ho hmsg
    have hidM : ∀ x, ((fun x => process_medical_analysis x (oM x.id) now) x).id
        = x.id := fun x => process_medical_analysis_id x _ now
    have hidM2 : ∀ x, ((fun x => process_medical_analysis x (oM2 x.id) now2) x).id
        = x.id := fun x => process_medical_analysis_id x _ now2
    have core := drain_failed_core m _ _ hidM hidM2 hnd it hmem hpend
    have hstat : (process_medical_analysis it (oM it.id) now).status = Status.failed
        ∧ (process_medical_analysis it (oM it.id) now).error = some msg
        ∧ (process_medical_analysis it (oM it.id) now).processedAt = some now := by
      rcases ho with h | h | h <;> rw [h] <;> simp [process_medical_analysis]
    have hterm : (process_medical_analysis it (oM it.id) now).status ≠
        Status.pending := by
      rw [hstat.1]
      intro hcon
      cases hcon
    refine ⟨process_medical_analysis it (oM it.id) now, core.1, hstat.1,
      hstat.2.1, ?_, hstat.2.2, core.2.1, (core.2.2 hterm).1,
      (core.2.2 hterm).2⟩
    rw [hstat.2.1]
    intro hcon
    exact hmsg (Option.some.inj hcon)

theorem failed_items_witness :
    (∃ it', findDoc WorkItem.id (process_pending_analyses [cxFoodItem]
          [cxMedItem] (fun _ => FoodOutcome.fetchErr "boom")
          (fun _ => MedOutcome.ok "" {}) 5).food cxFoodItem.id = some it'
        ∧ it'.status = Status.failed ∧ it'.error = some "boom")
    ∧ (∃ it', findDoc WorkItem.id (process_pending_analyses [cxFoodItem]
          [cxMedItem] (fun _ => FoodOutcome.ok {})
          (fun _ => MedOutcome.parseErr "bad json") 7).medical cxMedItem.id
          = some it'
        ∧ it'.status = Status.failed ∧ it'.error = some "bad json") := by
  constructor
  · rcases failed_items_terminal_and_not_retried.1 [cxFoodItem] [cxMedItem]
      (fun _ => FoodOutcome.fetchErr "boom") (fun _ => FoodOutcome.ok {})
      (fun _ => MedOutcome.ok "" {}) (fun _ => MedOutcome.ok "" {}) 5 6
      cxFoodItem "boom" (by unfold keysNodup; decide) (by decide) rfl
      (Or.inl rfl) (by decide)
      with ⟨it', h1, h2, h3, _⟩
    exact ⟨it', h1, h2, h3⟩
  · rcases failed_items_terminal_and_not_retried.2 [cxFoodItem] [cxMedItem]
      (fun _ => FoodOutcome.ok {}) (fun _ => FoodOutcome.ok {})
      (fun _ => MedOutcome.parseErr "bad json") (fun _ => MedOutcome.ok "" {})
      7 8 cxMedItem "bad json" (by unfold keysNodup; decide) (by decide) rfl
      (Or.inr (Or.inr rfl)) (by decide)
      with ⟨it', h1, h2, h3, _⟩
    exact ⟨it', h1, h2, h3⟩

theorem mem_deleteSeq_subset {α : Type} (key : α → String) {s : List α}
    {vs : List String} {ok : String → Bool} {x : α}
    (h : x ∈ (deleteSeq key s vs ok).1) : x ∈ s := by
  induction vs generalizing s with
  | nil => simpa [deleteSeq] using h
  | cons v tl ih =>
    by_cases hv : ok v
    · simp only [deleteSeq, hv, if_pos] at h
      exact ((mem_removeDoc key).mp (ih h)).1
    · simpa [deleteSeq, hv] using h

theorem stepOkItem_same_or_none {b a : Option WorkItem}
    (h : a = b ∨ a = none) : stepOkItem b a := by
  rcases h with rfl | rfl
  · cases a with
    | none => rfl
    | some x => exact Or.inl rfl
  · cases b with
    | none => rfl
    | some x => trivial

theorem WFStore_drainStore (s : List WorkItem) (proc : WorkItem → WorkItem)
    (hid : ∀ x, (proc x).id = x.id)
    (hterm : ∀ x, (proc x).status ≠ Status.pending)
    (h : WFStore s) : WFStore (drainStore s proc).1 := by
  have hnd' : keysNodup WorkItem.id (drainStore s proc).1 :=
    drainStore_keysNodup proc s h.1
  refine ⟨hnd', ?_⟩
  intro x hx hp
  have hfdx : findDoc WorkItem.id (drainStore s proc).1 x.id = some x :=
    findDoc_eq_some_of_mem WorkItem.id hnd' hx
  rw [findDoc_drainStore proc hid s h.1] at hfdx
  cases hcase : findDoc WorkItem.id s x.id with
  | none =>
    rw [hcase] at hfdx
    cases hfdx
  | some b =>
    rw [hcase] at hfdx
    by_cases hbp : b.status = Status.pending
    · simp only [hbp, if_pos] at hfdx
      have hxe : proc b = x := Option.some.inj hfdx
      exact absurd (hxe ▸ hp) (hterm b)
    · simp only [hbp, if_neg, not_false_iff] at hfdx
      have hxe : b = x := Option.some.inj hfdx
      exact absurd (hxe ▸ hp) hbp

theorem cleanup_components (s : SysState) (okF okM okB : String → Bool)
    (now : Nat) :
    ((cleanup_old_data s okF okM okB now).1.food =
      (deleteSeq WorkItem.id s.food ((s.food.filter
        (fun x => decide (x.timestamp < now - 730 * 86400))).map WorkItem.id)
        okF).1)
    ∧ ((cleanup_old_data s okF okM okB now).1.medical =
        (deleteSeq WorkItem.id s.medical ((s.medical.filter (fun x =>
          decide (x.timestamp < now - 1095 * 86400) &&
            decide (x.itemType ≠ "critical"))).map WorkItem.id) okM).1
      ∨ (cleanup_old_data s okF okM okB now).1.medical = s.medical)
    ∧ (cleanup_old_data s okF okM okB now).1.recs = s.recs := by
  simp only [cleanup_old_data]
  split
  · split
    · exact ⟨rfl, Or.inl rfl, rfl⟩
    · exact ⟨rfl, Or.inl rfl, rfl⟩
  · exact ⟨rfl, Or.inr rfl, rfl⟩

theorem WFStore_deleteSeq (s : List WorkItem) (vs : List String)
    (ok : String → Bool) (h : WFStore s) :
    WFStore (deleteSeq WorkItem.id s vs ok).1 :=
  ⟨keysNodup_deleteSeq WorkItem.id s vs ok h.1,
   fun x hx hp => h.2 x (mem_deleteSeq_subset WorkItem.id hx) hp⟩

theorem WF_step (s : SysState) (h : WF s) (op : Op) : WF (step s op) := by
  cases op with
  | drain oF oM now =>
    refine ⟨?_, ?_⟩
    · exact WFStore_drainStore s.food _
        (fun x => process_food_analysis_id x _ now)
        (fun x => by
          rcases (process_food_analysis_status x (oF x.id) now).1 with hc | hc
            <;> rw [hc] <;> intro hcon <;> cases hcon)
        h.1
    · exact WFStore_drainStore s.medical _
        (fun x => process_medical_analysis_id x _ now)
        (fun x => by
          rcases (process_medical_analysis_status x (oM x.id) now).1 with hc | hc
            <;> rw [hc] <;> intro hcon <;> cases hcon)
        h.2
  | cleanup okF okM okB now =>
    have hc := cleanup_components s okF okM okB now
    refine ⟨?_, ?_⟩
    · show WFStore (cleanup_old_data s okF okM okB now).1.food
      rw [hc.1]
      exact WFStore_deleteSeq _ _ _ h.1
    · show WFStore (cleanup_old_data s okF okM okB now).1.medical
      rcases hc.2.1 with he | he <;> rw [he]
      · exact WFStore_deleteSeq _ _ _ h.2
      · exact h.2
  | daily uid o now => exact h
  | trend uid o now => exact h

theorem WF_run (s : SysState) (ops : List Op) (h : WF s) : WF (run s ops) := by
  induction ops generalizing s with
  | nil => exact h
  | cons op tl ih => exact ih (step s op) (WF_step s h op)

theorem step_stepOkItem (s : SysState) (h : WF s) (op : Op) (i : String) :
    stepOkItem (findDoc WorkItem.id s.food i)
      (findDoc WorkItem.id (step s op).food i)
    ∧ stepOkItem (findDoc WorkItem.id s.medical i)
      (findDoc WorkItem.id (step s op).medical i) := by
  cases op with
  | drain oF oM now =>
    constructor
    · have hid : ∀ x, ((fun x => process_food_analysis x (oF x.id) now) x).id
          = x.id := fun x => process_food_analysis_id x _ now
      show stepOkItem (findDoc WorkItem.id s.food i)
        (findDoc WorkItem.id (drainStore s.food _).1 i)
      rw [findDoc_drainStore _ hid s.food h.1.1]
      cases hfd : findDoc WorkItem.id s.food i with
      | none => rfl
      | some b =>
        by_cases hbp : b.status = Status.pending
        · simp only [hbp, if_pos]
          refine Or.inr ⟨hbp, (process_food_analysis_status b _ now).1, ?_,
            now, (process_food_analysis_status b _ now).2⟩
          exact h.1.2 b (findDoc_mem WorkItem.id hfd).1 hbp
        · simp only [hbp, if_neg, not_false_iff]
          exact Or.inl rfl
    · have hid : ∀ x, ((fun x => process_medical_analysis x (oM x.id) now) x).id
          = x.id := fun x => process_medical_analysis_id x _ now
      show stepOkItem (findDoc WorkItem.id s.medical i)
        (findDoc WorkItem.id (drainStore s.medical _).1 i)
      rw [findDoc_drainStore _ hid s.medical h.2.1]
      cases hfd : findDoc WorkItem.id s.medical i with
      | none => rfl
      | some b =>
        by_cases hbp : b.status = Status.pending
        · simp only [hbp, if_pos]
          refine Or.inr ⟨hbp, (process_medical_analysis_status b _ now).1, ?_,
            now, (process_medical_analysis_status b _ now).2⟩
          exact h.2.2 b (findDoc_mem WorkItem.id hfd).1 hbp
        · simp only [hbp, if_neg, not_false_iff]
          exact Or.inl rfl
  | cleanup okF okM okB now =>
    have hc := cleanup_components s okF okM okB now
    constructor
    · apply stepOkItem_same_or_none
      have hor := findDoc_deleteSeq_or_none WorkItem.id s.food
        ((s.food.filter
          (fun x => decide (x.timestamp < now - 730 * 86400))).map WorkItem.id)
        okF i
      rw [← hc.1] at hor
      exact hor
    · apply stepOkItem_same_or_none
      rcases hc.2.1 with he | he
      · have hor := findDoc_deleteSeq_or_none WorkItem.id s.medical
          ((s.medical.filter (fun x =>
            decide (x.timestamp < now - 1095 * 86400) &&
              decide (x.itemType ≠ "critical"))).map WorkItem.id) okM i
        rw [← he] at hor
        exact hor
      · refine Or.inl ?_
        show findDoc WorkItem.id
          (cleanup_old_data s okF okM okB now).1.medical i = _
        rw [he]
  | daily uid o now =>
    exact ⟨stepOkItem_same_or_none (Or.inl rfl),
      stepOkItem_same_or_none (Or.inl rfl)⟩
  | trend uid o now =>
    exact ⟨stepOkItem_same_or_none (Or.inl rfl),
      stepOkItem_same_or_none (Or.inl rfl)⟩

/-- C3.  Along any sequence of drainer, cleanup and insight/trend
operations started from a well-formed state, every transition of the
document at any id in either work-item container is allowed: the document
is untouched, deleted, or makes the single terminal transition
pending → completed/failed, at which `processedAt` is set — it was `none`
before (so it is assigned exactly once, at that transition) and terminal
documents are never modified again. -/
theorem workitem_status_transitions (s0 : SysState) (hwf : WF s0)
    (ops : List Op) (op : Op) (i : String) :
    stepOkItem (findDoc WorkItem.id (run s0 ops).food i)
      (findDoc WorkItem.id (step (run s0 ops) op).food i)
    ∧ stepOkItem (findDoc WorkItem.id (run s0 ops).medical i)
      (findDoc WorkItem.id (step (run s0 ops) op).medical i) :=
  step_stepOkItem (run s0 ops) (WF_run s0 ops hwf) op i

theorem workitem_status_transitions_witness :
    stepOkItem
      (findDoc WorkItem.id
        (run ⟨[cxFoodItem], [cxMedItem], [], [], []⟩ []).food "f1")
      (findDoc WorkItem.id
        (step (run ⟨[cxFoodItem], [cxMedItem], [], [], []⟩ [])
          (Op.drain (fun _ => FoodOutcome.ok {})
            (fun _ => MedOutcome.ok "" {}) 5)).food "f1")
    ∧ stepOkItem
      (findDoc WorkItem.id
        (run ⟨[cxFoodItem], [cxMedItem], [], [], []⟩ []).medical "f1")
      (findDoc WorkItem.id
        (step (run ⟨[cxFoodItem], [cxMedItem], [], [], []⟩ [])
          (Op.drain (fun _ => FoodOutcome.ok {})
            (fun _ => MedOutcome.ok "" {}) 5)).medical "f1") :=
  workitem_status_transitions ⟨[cxFoodItem], [cxMedItem], [], [], []⟩
    (by
      constructor <;> constructor
      · unfold keysNodup
        decide
      · decide
      · unfold keysNodup
        decide
      · decide)
    [] (Op.drain (fun _ => FoodOutcome.ok {}) (fun _ => MedOutcome.ok "" {}) 5)
    "f1"

/-- When the user has recent data and the completion succeeds, the daily
insight run is exactly an upsert of the day-keyed record. -/
theorem generate_insights_ok_eq (f m : List WorkItem) (recs : List RecRecord)
    (uid : String) (r : InsightResult) (now : Nat)
    (hdata : (f.filter (fun x => decide (x.userId = uid) &&
        decide (now - 7 * 86400 ≤ x.timestamp))).isEmpty = false ∨
      (m.filter (fun x => decide (x.userId = uid) &&
        decide (now - 7 * 86400 ≤ x.timestamp))).isEmpty = false) :
    generate_user_daily_insights f m recs uid (InsightOutcome.ok r) now =
      upsertDoc RecRecord.id recs
        { id := insightKey uid now
          userId := uid
          recType := "daily_insights"
          nutritionalTrends := r.nutritional_trends.getD []
          healthStatus := r.health_status.getD []
          dailyRecommendations := r.daily_recommendations.getD []
          longTermGoals := r.long_term_goals.getD []
          riskFactors := r.risk_factors.getD []
          generatedAt := now
          rangeStart := now - 7 * 86400
          rangeEnd := now } := by
  have hcond : ((f.filter (fun x => decide (x.userId = uid) &&
      decide (now - 7 * 86400 ≤ x.timestamp))).isEmpty &&
      (m.filter (fun x => decide (x.userId = uid) &&
      decide (now - 7 * 86400 ≤ x.timestamp))).isEmpty) = false := by
    rcases hdata with h | h
    · rw [h]
      exact Bool.false_and _
    · rw [h]
      exact Bool.and_false _
  simp only [generate_user_daily_insights]
  rw [hcond]
  simp

theorem generate_insights_keysNodup (f m : List WorkItem)
    (recs : List RecRecord) (uid : String) (o : InsightOutcome) (now : Nat)
    (h : keysNodup RecRecord.id recs) :
    keysNodup RecRecord.id
      (generate_user_daily_insights f m recs uid o now) := by
  simp only [generate_user_daily_insights]
  cases o with
  | err msg => split <;> exact h
  | ok r =>
    split
    · exact h
    · exact keysNodup_upsertDoc RecRecord.id recs _ h

/-- C5.  Running the daily insight generation for the same user at the
same instant any number of times (at least once) leaves exactly one
record under the `(userId, date)` insight key in the Recommendations
container: each re-run upserts the same id, overwriting instead of
duplicating. -/
theorem daily_insights_idempotent (f m : List WorkItem)
    (recs : List RecRecord) (uid : String) (r : InsightResult) (now n : Nat)
    (hnd : keysNodup RecRecord.id recs)
    (hdata : (f.filter (fun x => decide (x.userId = uid) &&
        decide (now - 7 * 86400 ≤ x.timestamp))).isEmpty = false ∨
      (m.filter (fun x => decide (x.userId = uid) &&
        decide (now - 7 * 86400 ≤ x.timestamp))).isEmpty = false) :
    countKey RecRecord.id
      ((fun v => generate_user_daily_insights f m v uid
        (InsightOutcome.ok r) now)^[n + 1] recs)
      (insightKey uid now) = 1 := by
  induction n generalizing recs with
  | zero =>
    rw [Function.iterate_one]
    rw [generate_insights_ok_eq f m recs uid r now hdata]
    exact countKey_upsertDoc RecRecord.id recs _ hnd
  | succ k ih =>
    rw [Function.iterate_succ_apply]
    exact ih (generate_user_daily_insights f m recs uid
      (InsightOutcome.ok r) now)
      (generate_insights_keysNodup f m recs uid _ now hnd)

theorem daily_insights_idempotent_witness :
    countKey RecRecord.id
      ((fun v => generate_user_daily_insights [cxFoodItem] [cxMedItem] v "u1"
        (InsightOutcome.ok {}) 604900)^[2] [])
      (insightKey "u1" 604900) = 1 :=
  daily_insights_idempotent [cxFoodItem] [cxMedItem] [] "u1" {} 604900 1
    (by unfold keysNodup; decide) (Or.inl (by decide))

theorem analyze_trends_ok_eq (f m : List WorkItem) (recs : List RecRecord)
    (uid : String) (r : TrendResult) (now : Nat)
    (h5 : 5 ≤ (f.filter (fun x => decide (x.userId = uid) &&
      decide (now - 90 * 86400 ≤ x.timestamp))).length) :
    analyze_user_health_trends f m recs uid (TrendOutcome.ok r) now =
      upsertDoc RecRecord.id recs
        { id := trendKey uid now
          userId := uid
          recType := "health_trends"
          nutritionalPatterns := r.nutritional_patterns.getD []
          healthMetricsTrend := r.health_metrics_trend.getD []
          behavioralPatterns := r.behavioral_patterns.getD []
          riskTrends := r.risk_trends.getD []
          healthTrajectory := r.health_trajectory.getD []
          interventions := r.interventions.getD []
          generatedAt := now
          rangeStart := now - 90 * 86400
          rangeEnd := now
          dataPoints := some ((f.filter (fun x => decide (x.userId = uid) &&
              decide (now - 90 * 86400 ≤ x.timestamp))).length +
            (m.filter (fun x => decide (x.userId = uid) &&
              decide (now - 90 * 86400 ≤ x.timestamp))).length) } := by
  simp only [analyze_user_health_trends]
  rw [if_neg (not_lt.mpr h5)]

/-- C7.  The weekly trend analysis of one user: with fewer than 5 food
items of theirs in the 90-day window it returns with the Recommendations
container unchanged (no record created, no error), and with at least 5
such items (and a successful completion) it leaves exactly one record
under the user's trend key. -/
theorem weekly_trend_minimum_data (f m : List WorkItem)
    (recs : List RecRecord) (uid : String) (o : TrendOutcome) (now : Nat) :
    ((f.filter (fun x => decide (x.userId = uid) &&
        decide (now - 90 * 86400 ≤ x.timestamp))).length < 5 →
      analyze_user_health_trends f m recs uid o now = recs)
    ∧ (∀ r, o = TrendOutcome.ok r → keysNodup RecRecord.id recs →
        5 ≤ (f.filter (fun x => decide (x.userId = uid) &&
          decide (now - 90 * 86400 ≤ x.timestamp))).length →
        countKey RecRecord.id (analyze_user_health_trends f m recs uid o now)
          (trendKey uid now) = 1) := by
  constructor
  · intro hlt
    simp only [analyze_user_health_trends]
    rw [if_pos hlt]
  · intro r ho hnd h5
    subst ho
    rw [analyze_trends_ok_eq f m recs uid r now h5]
    exact countKey_upsertDoc RecRecord.id recs _ hnd

theorem weekly_trend_minimum_data_witness :
    analyze_user_health_trends [cxFoodItem] [] [] "u2"
      (TrendOutcome.ok {}) 1000 = []
    ∧ countKey RecRecord.id
        (analyze_user_health_trends cxFood5 [] [] "u1"
          (TrendOutcome.ok {}) 1000) (trendKey "u1" 1000) = 1 :=
  ⟨(weekly_trend_minimum_data [cxFoodItem] [] [] "u2"
      (TrendOutcome.ok {}) 1000).1 (by decide),
   (weekly_trend_minimum_data cxFood5 [] [] "u1"
      (TrendOutcome.ok {}) 1000).2 {} rfl (by unfold keysNodup; decide)
      (by decide)⟩

theorem cleanup_medical_all_ok (s : SysState) (now : Nat) :
    (cleanup_old_data s (fun _ => true) (fun _ => true) (fun _ => true)
      now).1.medical
      = (deleteSeq WorkItem.id s.medical ((s.medical.filter (fun x =>
          decide (x.timestamp < now - 1095 * 86400) &&
            decide (x.itemType ≠ "critical"))).map WorkItem.id)
          (fun _ => true)).1 := by
  have hfok : (deleteSeq WorkItem.id s.food ((s.food.filter
      (fun x => decide (x.timestamp < now - 730 * 86400))).map WorkItem.id)
      (fun _ => true)).2.2 = true := by
    rw [deleteSeq_success]
    simp
  have hmok : (deleteSeq WorkItem.id s.medical ((s.medical.filter (fun x =>
      decide (x.timestamp < now - 1095 * 86400) &&
        decide (x.itemType ≠ "critical"))).map WorkItem.id)
      (fun _ => true)).2.2 = true := by
    rw [deleteSeq_success]
    simp
  simp only [cleanup_old_data, hfok, hmok, if_true]

/-- C6.  A cleanup run (with the delete calls succeeding) retains a food
item exactly when it is at most 730 days old — every older one is
deleted — and retains a medical item exactly when it is tagged
`critical` (regardless of age) or is at most 1095 days old. -/
theorem cleanup_retention_windows (s : SysState) (now : Nat)
    (hndF : keysNodup WorkItem.id s.food)
    (hndM : keysNodup WorkItem.id s.medical) :
    (∀ x ∈ s.food,
      (x ∈ (cleanup_old_data s (fun _ => true) (fun _ => true)
          (fun _ => true) now).1.food
        ↔ now ≤ x.timestamp + 730 * 86400))
    ∧ (∀ x ∈ s.medical,
      (x ∈ (cleanup_old_data s (fun _ => true) (fun _ => true)
          (fun _ => true) now).1.medical
        ↔ (x.itemType = "critical" ∨ now ≤ x.timestamp + 1095 * 86400))) := by
  constructor
  · intro x hx
    rw [(cleanup_components s (fun _ => true) (fun _ => true)
      (fun _ => true) now).1]
    rw [mem_deleteSeq_all_ok WorkItem.id s.food _ (fun _ => true)
      (fun v _ => rfl) x]
    constructor
    · rintro ⟨-, hnotin⟩
      by_contra hlt
      apply hnotin
      rw [mem_map_key_filter WorkItem.id _ hndF hx]
      simp only [decide_eq_true_eq]
      omega
    · intro hle
      refine ⟨hx, ?_⟩
      intro hin
      rw [mem_map_key_filter WorkItem.id _ hndF hx] at hin
      simp only [decide_eq_true_eq] at hin
      omega
  · intro x hx
    rw [cleanup_medical_all_ok s now]
    rw [mem_deleteSeq_all_ok WorkItem.id s.medical _ (fun _ => true)
      (fun v _ => rfl) x]
    constructor
    · rintro ⟨-, hnotin⟩
      by_cases hcrit : x.itemType = "critical"
      · exact Or.inl hcrit
      · refine Or.inr ?_
        by_contra hlt
        apply hnotin
        rw [mem_map_key_filter WorkItem.id _ hndM hx]
        simp only [Bool.and_eq_true, decide_eq_true_eq]
        exact ⟨by omega, hcrit⟩
    · intro h
      refine ⟨hx, ?_⟩
      intro hin
      rw [mem_map_key_filter WorkItem.id _ hndM hx] at hin
      simp only [Bool.and_eq_true, decide_eq_true_eq] at hin
      rcases h with h | h
      · exact hin.2 h
      · omega

theorem cleanup_retention_witness :
    cxOldFood ∉ (cleanup_old_data cxCleanupState (fun _ => true)
      (fun _ => true) (fun _ => true) (2000 * 86400)).1.food
    ∧ cxNewFood ∈ (cleanup_old_data cxCleanupState (fun _ => true)
      (fun _ => true) (fun _ => true) (2000 * 86400)).1.food
    ∧ cxCriticalMed ∈ (cleanup_old_data cxCleanupState (fun _ => true)
      (fun _ => true) (fun _ => true) (2000 * 86400)).1.medical
    ∧ cxOldMed ∉ (cleanup_old_data cxCleanupState (fun _ => true)
      (fun _ => true) (fun _ => true) (2000 * 86400)).1.medical := by
  have h := cleanup_retention_windows cxCleanupState (2000 * 86400)
    (by unfold keysNodup; decide) (by unfold keysNodup; decide)
  refine ⟨?_, ?_, ?_, ?_⟩
  · intro hin
    have := (h.1 cxOldFood (by decide)).mp hin
    revert this
    decide
  · exact (h.1 cxNewFood (by decide)).mpr (by decide)
  · exact (h.2 cxCriticalMed (by decide)).mpr (Or.inl rfl)
  · intro hin
    have := (h.2 cxOldMed (by decide)).mp hin
    revert this
    decide

/-- C8 (counterexample).  With two food items eligible for deletion, a
failure deleting the first aborts the run: the second eligible food item
is never attempted and survives, the eligible medical item is never
attempted and survives, and the blob sweep is never reached — the cleanup
loops have no per-entity error isolation. -/
theorem cleanup_not_per_entity_counterexample :
    "of2" ∈ cxAbortRun.2.foodVictims
    ∧ cxAbortRun.2.foodAttempted = ["of"]
    ∧ cxAbortRun.2.foodOk = false
    ∧ cxOldFood2 ∈ cxAbortRun.1.food
    ∧ cxAbortRun.2.medAttempted = []
    ∧ cxOldMed ∈ cxAbortRun.1.medical
    ∧ cxAbortRun.2.blobsAttempted = []
    ∧ cxOldBlob ∈ cxAbortRun.1.foodBlobs := by
  decide

/-- C8 (amended).  An error deleting one WorkItem aborts the remaining
deletions of the same cleanup run rather than being isolated per entity:
if the food-deletion phase fails, the attempted ids are exactly the
successful prefix of the victims plus the one failing id, every
unattempted victim is left untouched, and neither the medical deletions
nor the blob sweep are attempted; if the food phase succeeds and the
medical phase fails, the blob sweep is likewise never attempted and the
unattempted medical victims are untouched.  (The error is caught at the
loop level, so only the current run is cut short.) -/
theorem cleanup_abort_behavior (s : SysState) (okF okM okB : String → Bool)
    (now : Nat) (out : SysState × CleanupLog)
    (hout : out = cleanup_old_data s okF okM okB now) :
    (out.2.foodOk = false →
      out.2.foodAttempted = out.2.foodVictims.takeWhile okF ++
        (out.2.foodVictims.dropWhile okF).take 1
      ∧ out.2.medAttempted = []
      ∧ out.2.blobsAttempted = []
      ∧ out.1.medical = s.medical
      ∧ out.1.foodBlobs = s.foodBlobs
      ∧ out.1.medBlobs = s.medBlobs
      ∧ ∀ i ∈ out.2.foodVictims, i ∉ out.2.foodAttempted →
          findDoc WorkItem.id out.1.food i = findDoc WorkItem.id s.food i)
    ∧ (out.2.foodOk = true → out.2.medOk = false →
      out.2.blobsAttempted = []
      ∧ out.1.foodBlobs = s.foodBlobs
      ∧ out.1.medBlobs = s.medBlobs
      ∧ ∀ i ∈ out.2.medVictims, i ∉ out.2.medAttempted →
          findDoc WorkItem.id out.1.medical i =
            findDoc WorkItem.id s.medical i) := by
  subst hout
  simp only [cleanup_old_data]
  by_cases hf : (deleteSeq WorkItem.id s.food ((s.food.filter
      (fun x => decide (x.timestamp < now - 730 * 86400))).map WorkItem.id)
      okF).2.2 = true
  · simp only [hf, if_true]
    by_cases hm : (deleteSeq WorkItem.id s.medical ((s.medical.filter
        (fun x => decide (x.timestamp < now - 1095 * 86400) &&
          decide (x.itemType ≠ "critical"))).map WorkItem.id) okM).2.2 = true
    · simp only [hm, if_true]
      constructor
      · intro h
        cases h
      · intro _ h
        cases h
    · rw [Bool.not_eq_true] at hm
      simp only [hm, Bool.false_eq_true, if_false]
      constructor
      · intro h
        cases h
      · intro _ _
        refine ⟨by trivial, by trivial, by trivial, ?_⟩
        intro i _ hni
        exact findDoc_deleteSeq_of_not_attempted WorkItem.id s.medical _
          okM i hni
  · rw [Bool.not_eq_true] at hf
    simp only [hf, Bool.false_eq_true, if_false]
    constructor
    · intro _
      refine ⟨?_, by trivial, by trivial, by trivial, by trivial,
        by trivial, ?_⟩
      · exact deleteSeq_attempted WorkItem.id s.food _ okF
      · intro i _ hni
        exact findDoc_deleteSeq_of_not_attempted WorkItem.id s.food _
          okF i hni
    · intro h
      cases h

theorem cleanup_abort_behavior_witness :
    (cxAbortRun.2.medAttempted = [] ∧ cxAbortRun.1.medical =
      cxAbortState.medical)
    ∧ (cleanup_old_data cxAbortState (fun _ => true)
        (fun v => decide (v ≠ "om")) (fun _ => true)
        (2000 * 86400)).2.blobsAttempted = [] := by
  constructor
  · have h := (cleanup_abort_behavior cxAbortState (fun v => decide (v ≠ "of"))
      (fun _ => true) (fun _ => true) (2000 * 86400) cxAbortRun rfl).1
      (by decide)
    exact ⟨h.2.1, h.2.2.2.1⟩
  · have h := (cleanup_abort_behavior cxAbortState (fun _ => true)
      (fun v => decide (v ≠ "om")) (fun _ => true) (2000 * 86400)
      (cleanup_old_data cxAbortState (fun _ => true)
        (fun v => decide (v ≠ "om")) (fun _ => true) (2000 * 86400)) rfl).2
      (by decide) (by decide)
    exact h.1

/-- C9 (counterexample).  A message that parses as JSON but whose handler
raises is still completed: `handle_notification_message` catches the
handler's exception itself, so the receiver's `except`/abandon branch is
never reached for handler errors. -/
theorem notification_handler_error_still_completed :
    process_service_bus_message
      ⟨some [("type", "urgent_health_alert"), ("userId", "u1")]⟩
      (fun _ => some "handler blew up")
    = (MsgOutcome.completed, some HandlerKind.urgentHealthAlert,
        some "handler blew up") := by
  decide

/-- C9 (amended).  The consumer completes a received message exactly when
its body parses as JSON, and abandons it exactly when parsing raises;
handler errors are swallowed inside the dispatcher and do not prevent
completion.  A message of unknown type is dispatched to no handler and
still completed. -/
theorem notification_ack_iff_parses (msg : SBMessage)
    (handler : HandlerKind → Option String) :
    ((process_service_bus_message msg handler).1 = MsgOutcome.completed
      ↔ msg.body.isSome = true)
    ∧ ((process_service_bus_message msg handler).1 = MsgOutcome.abandoned
      ↔ msg.body = none)
    ∧ (∀ obj, msg.body = some obj → dispatchOf obj = none →
        process_service_bus_message msg handler =
          (MsgOutcome.completed, none, none)) := by
  rcases msg with ⟨body⟩
  cases body with
  | none =>
    refine ⟨?_, ?_, ?_⟩
    · simp [process_service_bus_message]
    · simp [process_service_bus_message]
    · intro obj h
      cases h
  | some obj =>
    refine ⟨?_, ?_, ?_⟩
    · simp [process_service_bus_message]
    · simp [process_service_bus_message]
    · intro obj' h hnone
      have he : obj = obj' := Option.some.inj h
      subst he
      simp [process_service_bus_message, handle_notification_message, hnone]

theorem notification_ack_witness :
    process_service_bus_message
      ⟨some [("type", "mystery"), ("userId", "u")]⟩ (fun _ => none)
    = (MsgOutcome.completed, none, none) :=
  (notification_ack_iff_parses ⟨some [("type", "mystery"), ("userId", "u")]⟩
    (fun _ => none)).2.2 [("type", "mystery"), ("userId", "u")] rfl
    (by decide)

/-- C10.  When the inference reply is valid JSON with all expected keys
absent, processing still succeeds with empty defaults: a pending food or
medical item is marked completed with empty result fields (not failed),
and the daily-insight record is still upserted, with empty values for the
absent keys. -/
theorem missing_keys_default_to_empty :
    (∀ (f m : List WorkItem) (oF : String → FoodOutcome)
        (oM : String → MedOutcome) (now : Nat) (it : WorkItem),
      keysNodup WorkItem.id f → it ∈ f → it.status = Status.pending →
      oF it.id = FoodOutcome.ok {} →
      findDoc WorkItem.id (process_pending_analyses f m oF oM now).food it.id
        = some { it with
            status := Status.completed
            foodItems := []
            nutritionInfo := []
            healthAssessment := []
            recommendations := []
            processedAt := some now })
    ∧ (∀ (f m : List WorkItem) (oF : String → FoodOutcome)
        (oM : String → MedOutcome) (now : Nat) (it : WorkItem)
        (text : String),
      keysNodup WorkItem.id m → it ∈ m → it.status = Status.pending →
      oM it.id = MedOutcome.ok text {} →
      findDoc WorkItem.id
          (process_pending_analyses f m oF oM now).medical it.id
        = some { it with
            status := Status.completed
            extractedText := text
            keyFindings := []
            metrics := []
            riskAssessment := []
            followUpActions := []
            lifestyleRecommendations := []
            processedAt := some now })
    ∧ (∀ (f m : List WorkItem) (recs : List RecRecord) (uid : String)
        (now : Nat),
      keysNodup RecRecord.id recs →
      ((f.filter (fun x => decide (x.userId = uid) &&
          decide (now - 7 * 86400 ≤ x.timestamp))).isEmpty = false ∨
        (m.filter (fun x => decide (x.userId = uid) &&
          decide (now - 7 * 86400 ≤ x.timestamp))).isEmpty = false) →
      findDoc RecRecord.id
          (generate_user_daily_insights f m recs uid
            (InsightOutcome.ok {}) now) (insightKey uid now)
        = some { id := insightKey uid now
                 userId := uid
                 recType := "daily_insights"
                 generatedAt := now
                 rangeStart := now - 7 * 86400
                 rangeEnd := now }) := by
  refine ⟨?_, ?_, ?_⟩
  · intro f m oF oM now it hnd hmem hpend ho
    have hid : ∀ x, ((fun x => process_food_analysis x (oF x.id) now) x).id
        = x.id := fun x => process_food_analysis_id x _ now
    have hfd := findDoc_eq_some_of_mem WorkItem.id hnd hmem
    show findDoc WorkItem.id (drainStore f _).1 it.id = _
    rw [findDoc_drainStore _ hid f hnd, hfd]
    simp only [hpend, if_pos]
    rw [ho]
    rfl
  · intro f m oF oM now it text hnd hmem hpend ho
    have hid : ∀ x, ((fun x => process_medical_analysis x (oM x.id) now) x).id
        = x.id := fun x => process_medical_analysis_id x _ now
    have hfd := findDoc_eq_some_of_mem WorkItem.id hnd hmem
    show findDoc WorkItem.id (drainStore m _).1 it.id = _
    rw [findDoc_drainStore _ hid m hnd, hfd]
    simp only [hpend, if_pos]
    rw [ho]
    rfl
  · intro f m recs uid now hnd hdata
    rw [generate_insights_ok_eq f m recs uid {} now hdata]
    rw [findDoc_upsertDoc]
    rw [if_pos rfl]
    rfl

theorem missing_keys_default_witness :
    findDoc WorkItem.id (process_pending_analyses [cxFoodItem] [cxMedItem]
        (fun _ => FoodOutcome.ok {}) (fun _ => MedOutcome.ok "txt" {}) 9).food
        "f1"
      = some { cxFoodItem with
          status := Status.completed
          foodItems := []
          nutritionInfo := []
          healthAssessment := []
          recommendations := []
          processedAt := some 9 }
    ∧ findDoc WorkItem.id (process_pending_analyses [cxFoodItem] [cxMedItem]
        (fun _ => FoodOutcome.ok {}) (fun _ => MedOutcome.ok "txt" {}) 9).medical
        "m1"
      = some { cxMedItem with
          status := Status.completed
          extractedText := "txt"
          keyFindings := []
          metrics := []
          riskAssessment := []
          followUpActions := []
          lifestyleRecommendations := []
          processedAt := some 9 }
    ∧ findDoc RecRecord.id
        (generate_user_daily_insights [cxFoodItem] [cxMedItem] [] "u1"
          (InsightOutcome.ok {}) 604900) (insightKey "u1" 604900)
      = some { id := insightKey "u1" 604900
               userId := "u1"
               recType := "daily_insights"
               generatedAt := 604900
               rangeStart := 604900 - 7 * 86400
               rangeEnd := 604900 } :=
  ⟨missing_keys_default_to_empty.1 [cxFoodItem] [cxMedItem]
      (fun _ => FoodOutcome.ok {}) (fun _ => MedOutcome.ok "txt" {}) 9
      cxFoodItem (by unfold keysNodup; decide) (by decide) rfl rfl,
   missing_keys_default_to_empty.2.1 [cxFoodItem] [cxMedItem]
      (fun _ => FoodOutcome.ok {}) (fun _ => MedOutcome.ok "txt" {}) 9
      cxMedItem "txt" (by unfold keysNodup; decide) (by decide) rfl rfl,
   missing_keys_default_to_empty.2.2 [cxFoodItem] [cxMedItem] [] "u1" 604900
      (by unfold keysNodup; decide) (Or.inl (by decide))⟩

end HealthProc
